import Mathlib

/-!
Shallow embedding of the acquisition-and-export pipeline of
`src/youtube_downloader.py`.

Python strings are modelled as `List Char`; the Python operations used by
the source (`str.split`, `in`, `str.join`, `str.strip`, the two `re.sub`
substitutions of `sanitize_filename`, dictionary `.get` with defaults) are
modelled by the executable functions below.  Network calls are modelled by
explicit outcome values supplied by the caller: a pure environment function
stands for the provider, covering raised exceptions and non-200 statuses.
-/

/-- Convert a Lean string literal into the `List Char` model of a Python
string. -/
def str (s : String) : List Char := s.toList

/-- Python substring containment `sep in s`, used by the guards of
`extract_video_id`. -/
def inStr (sep : List Char) : List Char → Bool
  | [] => sep.isEmpty
  | c :: rest => sep.isPrefixOf (c :: rest) || inStr sep rest

/-- Scanner implementing Python `str.split` for a non-empty separator
`sc :: srest`; `acc` holds the chunk currently being read, reversed, and
`skip` counts separator characters still to be consumed after a match
(so occurrences are found left-to-right and never overlap). -/
def pySplitAux (sc : Char) (srest : List Char) : List Char → List Char → Nat → List (List Char)
  | [], acc, _ => [acc.reverse]
  | _ :: rest, acc, skip + 1 => pySplitAux sc srest rest acc skip
  | c :: rest, acc, 0 =>
    if (sc :: srest).isPrefixOf (c :: rest) then
      acc.reverse :: pySplitAux sc srest rest [] srest.length
    else
      pySplitAux sc srest rest (c :: acc) 0

/-- Python `s.split(sep)`.  The source only ever splits on non-empty
literal separators (Python raises on an empty one; we return `[s]` there,
an unreachable case). -/
def pySplit (s : List Char) : List Char → List (List Char)
  | [] => [s]
  | sc :: srest => pySplitAux sc srest s [] 0

/-- Tail of Python `sep.join`: the remaining chunks, each preceded by the
separator. -/
def pyJoinRest (sep : List Char) : List (List Char) → List Char
  | [] => []
  | s :: rest => sep ++ s ++ pyJoinRest sep rest

/-- Python `sep.join(parts)`. -/
def pyJoin (sep : List Char) : List (List Char) → List Char
  | [] => []
  | s :: rest => s ++ pyJoinRest sep rest

/-- Python list indexing `l[i]` as used by the source; the guards of the
source guarantee the index exists at every use site. -/
def pyIdx (l : List (List Char)) (i : Nat) : List Char := l.getD i []

/-- Lines 36–44 of the source, `extract_video_id`: resolve a raw input line
to a video id, or `none` for an unrecognized shape. -/
def extract_video_id (url : List Char) : Option (List Char) :=
  if inStr (str "youtube.com/watch?v=") url then
    some (pyIdx (pySplit (pyIdx (pySplit url (str "v=")) 1) (str "&")) 0)
  else if inStr (str "youtu.be/") url then
    some (pyIdx (pySplit (pyIdx (pySplit url (str "youtu.be/")) 1) (str "?")) 0)
  else if url.length = 11 then
    some url
  else
    none

/-- Video metadata as returned by `fetch_video_metadata` (the JSON object
of a 200 response of the metadata endpoint).  Fields read with Python
`.get` defaults are `Option`s; `uploadDate` is read with `data["uploadDate"]`
in `filter_by_date`, whose `KeyError` on a missing key is caught by the
surrounding `try`. -/
structure VideoMetadata where
  title : Option (List Char)
  uploadDate : Option (List Char)
  viewCount : Option Nat
  transcriptLanguages : Option (List (List Char))
deriving DecidableEq

/-- Result dictionary of `check_transcript_availability` (lines 78–100). -/
structure Availability where
  available : Bool
  lang : Option (List Char)
  all_langs : List (List Char)
  title : List Char
deriving DecidableEq

/-- The `for lang in preferred_langs` loop of lines 86–93: first preferred
language contained in the available ones. -/
def firstAvailable (preferred available : List (List Char)) : Option (List Char) :=
  match preferred with
  | [] => none
  | lang :: rest =>
    if available.contains lang then some lang else firstAvailable rest available

/-- Lines 78–100 of the source, `check_transcript_availability`.  A `none`
metadata input (Python falsy `metadata`, i.e. the upstream fetch failed)
yields `none`; otherwise a dictionary with `available`, `lang`,
`all_langs` and `title` keys is returned. -/
def check_transcript_availability (metadata : Option VideoMetadata)
    (preferred_langs : List (List Char)) : Option Availability :=
  match metadata with
  | none => none
  | some m =>
    let available_langs := m.transcriptLanguages.getD []
    match firstAvailable preferred_langs available_langs with
    | some lang => some ⟨true, some lang, available_langs, m.title.getD (str "N/A")⟩
    | none => some ⟨false, none, available_langs, m.title.getD (str "N/A")⟩

/-- A transcript segment object: Python reads `segment.get('text', '')`,
so the `text` key may be absent. -/
structure Segment where
  text : Option (List Char)
deriving DecidableEq

/-- The `content` field of the transcript endpoint's 200 response body:
either a flat string or a list of segment objects. -/
inductive ContentVal where
  | str (s : List Char)
  | segs (l : List Segment)
deriving DecidableEq

/-- Body of a transcript endpoint response (`response.json()`); the
`content` key is read with `data.get('content', '')`. -/
structure TranscriptBody where
  content : Option ContentVal
deriving DecidableEq

/-- Outcome of `requests.get` for the transcript endpoint: either the call
raised (network or decode exception) or a response with a status and a
body arrived. -/
inductive FetchOutcome where
  | raised
  | response (status : Nat) (body : TranscriptBody)
deriving DecidableEq

/-- The dictionary returned by a successful `fetch_transcript`: the
`content` key has been normalized to a flat string (other response keys
pass through unchanged and are not read by the pipeline). -/
structure TranscriptData where
  content : List Char
deriving DecidableEq

/-- Lines 102–129 of the source, `fetch_transcript`.  The `api_key`,
`video_id`, `lang` and `as_text` arguments only shape the outgoing
request; `outcome` stands for the result of the `requests.get` call. -/
def fetch_transcript (api_key video_id lang : List Char) (as_text : Bool)
    (outcome : FetchOutcome) : Option TranscriptData :=
  match outcome with
  | .raised => none
  | .response status data =>
    if status = 200 then
      let content := data.content.getD (.str [])
      match content with
      | .str s => some ⟨s⟩
      | .segs l => some ⟨pyJoin (str "\n") (l.map (fun segment => segment.text.getD []))⟩
    else
      none

/-- Character class of the first `re.sub` of `sanitize_filename`: the
Windows-reserved characters and the control range `\x00-\x1f`. -/
def isInvalidFilenameChar (c : Char) : Bool :=
  c = '<' || c = '>' || c = ':' || c = '"' || c = '/' || c = '\\' ||
  c = '|' || c = '?' || c = '*' || c.toNat ≤ 0x1f

/-- Python regex `\s` on `str`: ASCII whitespace plus the file separators
and the Unicode whitespace code points matched by `re` in text mode. -/
def pyIsSpace (c : Char) : Bool :=
  (0x9 ≤ c.toNat && c.toNat ≤ 0xd) || (0x1c ≤ c.toNat && c.toNat ≤ 0x1f) ||
  c = ' ' || c.toNat = 0x85 || c.toNat = 0xa0 || c.toNat = 0x1680 ||
  (0x2000 ≤ c.toNat && c.toNat ≤ 0x200a) || c.toNat = 0x2028 ||
  c.toNat = 0x2029 || c.toNat = 0x202f || c.toNat = 0x205f || c.toNat = 0x3000

/-- The second `re.sub` of `sanitize_filename`, `re.sub(r'\s+', ' ', s)`:
each maximal whitespace run becomes a single space.  `inRun` records
whether the previous character belonged to a run already replaced. -/
def collapseSpacesAux : Bool → List Char → List Char
  | _, [] => []
  | inRun, c :: rest =>
    if pyIsSpace c then
      if inRun then collapseSpacesAux true rest
      else ' ' :: collapseSpacesAux true rest
    else
      c :: collapseSpacesAux false rest

/-- Python `s.strip(' .')`: remove leading and trailing spaces and dots. -/
def pyStripSpaceDot (s : List Char) : List Char :=
  ((s.dropWhile (fun c => c = ' ' || c = '.')).reverse.dropWhile
    (fun c => c = ' ' || c = '.')).reverse

/-- Lines 131–152 of the source, `sanitize_filename`: remove invalid
characters, collapse whitespace runs, strip spaces/dots at the ends,
default to `"untitled"` when empty, then cap the length. -/
def sanitize_filename (filename : List Char) (max_length : Nat) : List Char :=
  let f1 := filename.filter (fun c => !isInvalidFilenameChar c)
  let f2 := collapseSpacesAux false f1
  let f3 := pyStripSpaceDot f2
  let f4 := if f3 = [] then str "untitled" else f3
  if max_length < f4.length then f4.take max_length else f4

/-- Modelled from the spec: the sanitization pipeline in the order the
spec's words give it (strip invalid characters, collapse whitespace,
trim spaces and dots, cap at 200 characters, substitute `"untitled"` when
the result is empty), to be compared against `sanitize_filename`. -/
def sanitizeSpecPipeline (title : List Char) : List Char :=
  let s1 := title.filter (fun c => !isInvalidFilenameChar c)
  let s2 := collapseSpacesAux false s1
  let s3 := pyStripSpaceDot s2
  let s4 := if 200 < s3.length then s3.take 200 else s3
  if s4 = [] then str "untitled" else s4

/-- Calendar date, the payload of `datetime.strptime(s, "%Y-%m-%d")`. -/
structure PyDate where
  year : Nat
  month : Nat
  day : Nat
deriving DecidableEq

/-- Days in a month, with the Gregorian leap rule, as validated by
`datetime`. -/
def daysInMonth (year month : Nat) : Nat :=
  if month = 2 then
    if year % 4 = 0 && (year % 100 ≠ 0 || year % 400 = 0) then 29 else 28
  else if month = 4 || month = 6 || month = 9 || month = 11 then 30
  else 31

/-- Decimal digit value of a character, if any. -/
def digitVal (c : Char) : Option Nat :=
  if c.isDigit then some (c.toNat - 48) else none

/-- `datetime.strptime(s, "%Y-%m-%d")` on the canonical zero-padded
ten-character shape produced by the metadata endpoint; any other shape is
a `ValueError`, i.e. `none` (the caller catches it and skips the item). -/
def pyStrptimeDate (s : List Char) : Option PyDate :=
  match s with
  | [y1, y2, y3, y4, '-', m1, m2, '-', d1, d2] => do
    let a ← digitVal y1
    let b ← digitVal y2
    let c ← digitVal y3
    let d ← digitVal y4
    let e ← digitVal m1
    let f ← digitVal m2
    let g ← digitVal d1
    let h ← digitVal d2
    let year := a * 1000 + b * 100 + c * 10 + d
    let month := e * 10 + f
    let day := g * 10 + h
    if 1 ≤ year ∧ 1 ≤ month ∧ month ≤ 12 ∧ 1 ≤ day ∧ day ≤ daysInMonth year month then
      some ⟨year, month, day⟩
    else
      none
  | _ => none

/-- `datetime` comparison `a >= b` for dates at midnight: lexicographic on
(year, month, day). -/
def dateLe (a b : PyDate) : Bool :=
  a.year < b.year ||
  (a.year = b.year && (a.month < b.month ||
    (a.month = b.month && a.day ≤ b.day)))

/-- An entry of the list built by `filter_by_date` (lines 206–211). -/
structure FilteredEntry where
  id : List Char
  title : List Char
  date : List Char
  views : Nat
deriving DecidableEq

/-- Body of the `filter_by_date` loop for one id: `none` models both a
falsy metadata fetch and the exceptions (missing `uploadDate` key,
unparseable date) swallowed by the `except: continue`. -/
def filterDateItem (env : List Char → Option VideoMetadata) (target_date : PyDate)
    (vid_id : List Char) : Option FilteredEntry :=
  match env vid_id with
  | none => none
  | some data =>
    match data.uploadDate with
    | none => none
    | some ud =>
      match pyStrptimeDate (ud.take 10) with
      | none => none
      | some upload_date =>
        if dateLe target_date upload_date then
          some ⟨vid_id, data.title.getD (str "N/A"), ud.take 10, data.viewCount.getD 0⟩
        else
          none

/-- Lines 195–218 of the source, `filter_by_date`: scan at most the first
50 ids, keep (in input order) those whose parsed upload date is on or
after `target_date`.  `env` stands for `fetch_video_metadata` with the
given api key. -/
def filter_by_date (env : List Char → Option VideoMetadata)
    (video_ids : List (List Char)) (target_date : PyDate) : List FilteredEntry :=
  (video_ids.take 50).filterMap (filterDateItem env target_date)

/-- Value of the `transcript` key of a record: the orchestrator always
stores the flattened string, but the export code still guards
`isinstance(content, list)`, so the model keeps both shapes. -/
inductive TranscriptVal where
  | str (s : List Char)
  | list (l : List (List Char))
deriving DecidableEq

/-- Python `str(content)` followed by the `isinstance(content, list)`
join used at every export site: normalize a transcript value to a flat
string. -/
def transcriptValStr : TranscriptVal → List Char
  | .str s => s
  | .list l => pyJoin (str "\n") l

/-- The dictionary appended to `st.session_state.transcripts` at lines
704–710, key insertion order `video_id, title, lang, transcript,
all_langs`. -/
structure TranscriptRecord where
  video_id : List Char
  title : List Char
  lang : List Char
  transcript : TranscriptVal
  all_langs : List (List Char)
deriving DecidableEq

/-- Per-item status message emitted by the batch loop (lines 691, 711,
713, 716): exactly one per processed id, carrying the data the message
names. -/
inductive StatusEvent where
  | metadataFailed (video_id : List Char)
  | fetched (title : List Char) (lang : List Char)
  | transcriptFailed (video_id : List Char)
  | noTranscriptInLangs (title : List Char) (all_langs : List (List Char))
deriving DecidableEq

/-- Body of the batch loop (lines 684–719) for one id.  `envMeta` stands
for `fetch_video_metadata` and `envTr` for the transcript endpoint call
issued for a given id and language.  Returns the record appended (if any)
and the status message shown for the item. -/
def processItem (envMeta : List Char → Option VideoMetadata)
    (envTr : List Char → List Char → FetchOutcome)
    (api_key : List Char) (preferred_langs : List (List Char)) (as_text : Bool)
    (video_id : List Char) : Option TranscriptRecord × StatusEvent :=
  match envMeta video_id with
  | none => (none, .metadataFailed video_id)
  | some metadata =>
    match check_transcript_availability (some metadata) preferred_langs with
    | none => (none, .metadataFailed video_id)
    | some availability =>
      if availability.available then
        let lang := availability.lang.getD []
        match fetch_transcript api_key video_id lang as_text (envTr video_id lang) with
        | some transcript_data =>
          (some ⟨video_id, availability.title, lang, .str transcript_data.content,
              availability.all_langs⟩,
           .fetched availability.title lang)
        | none => (none, .transcriptFailed video_id)
      else
        (none, .noTranscriptInLangs availability.title availability.all_langs)

/-- The batch loop over a list of ids: records and status messages are
accumulated strictly in input order, one status message per id. -/
def runBatchAux (envMeta : List Char → Option VideoMetadata)
    (envTr : List Char → List Char → FetchOutcome)
    (api_key : List Char) (preferred_langs : List (List Char)) (as_text : Bool) :
    List (List Char) → List TranscriptRecord × List StatusEvent
  | [] => ([], [])
  | vid :: rest =>
    let step := processItem envMeta envTr api_key preferred_langs as_text vid
    let tail := runBatchAux envMeta envTr api_key preferred_langs as_text rest
    (step.1.toList ++ tail.1, step.2 :: tail.2)

/-- Lines 678–724 of the source, the transcript batch orchestrator:
process the first `max_videos` ids (`st.session_state.video_ids[:max_videos]`). -/
def runBatch (envMeta : List Char → Option VideoMetadata)
    (envTr : List Char → List Char → FetchOutcome)
    (api_key : List Char) (preferred_langs : List (List Char)) (as_text : Bool)
    (video_ids : List (List Char)) (max_videos : Nat) :
    List TranscriptRecord × List StatusEvent :=
  runBatchAux envMeta envTr api_key preferred_langs as_text (video_ids.take max_videos)

/-- Concatenation of a list of strings. -/
def concatAll : List (List Char) → List Char
  | [] => []
  | s :: rest => s ++ concatAll rest

/-- Lowercase hexadecimal digit, as used by CPython's json `\uXXXX`
escapes. -/
def hexDigit (n : Nat) : Char :=
  if n < 10 then Char.ofNat (48 + n) else Char.ofNat (87 + n)

/-- CPython `json.dumps` escaping of one character with
`ensure_ascii=False`: quote, backslash and control characters are
escaped, everything else is kept literally. -/
def jsonEscapeChar (c : Char) : List Char :=
  if c = '"' then ['\\', '"']
  else if c = '\\' then ['\\', '\\']
  else if c = '\n' then ['\\', 'n']
  else if c = '\r' then ['\\', 'r']
  else if c = '\t' then ['\\', 't']
  else if c.toNat = 8 then ['\\', 'b']
  else if c.toNat = 12 then ['\\', 'f']
  else if c.toNat < 32 then ['\\', 'u', '0', '0', hexDigit (c.toNat / 16), hexDigit (c.toNat % 16)]
  else [c]

/-- JSON rendering of a string value. -/
def dumpsStr (s : List Char) : List Char :=
  '"' :: concatAll (s.map jsonEscapeChar) ++ ['"']

/-- Indentation prefix at nesting level `ind` for `json.dumps(..., indent=2)`. -/
def indentChars (ind : Nat) : List Char := List.replicate (2 * ind) ' '

/-- JSON rendering of a list of strings at nesting level `ind`, with
`indent=2` (as `json.dumps` renders the `all_langs` value). -/
def dumpsStrList (ind : Nat) (l : List (List Char)) : List Char :=
  match l with
  | [] => str "[]"
  | _ =>
    str "[\n" ++
      pyJoin (str ",\n") (l.map (fun s => indentChars (ind + 1) ++ dumpsStr s)) ++
      str "\n" ++ indentChars ind ++ str "]"

/-- JSON rendering of a `transcript` value at nesting level `ind`. -/
def dumpsTranscriptVal (ind : Nat) : TranscriptVal → List Char
  | .str s => dumpsStr s
  | .list l => dumpsStrList ind l

/-- One key/value line of an indented JSON object. -/
def dumpsKeyVal (ind : Nat) (key val : List Char) : List Char :=
  indentChars ind ++ dumpsStr key ++ str ": " ++ val

/-- `json.dumps` of one record dictionary in the key order of the
combined export (lines 1002–1012; insertion order of lines 704–710),
at nesting level `ind` with `indent=2`, `ensure_ascii=False`. -/
def dumpsRecordCombined (ind : Nat) (t : TranscriptRecord) : List Char :=
  str "\x7b\n" ++
    pyJoin (str ",\n")
      [dumpsKeyVal (ind + 1) (str "video_id") (dumpsStr t.video_id),
       dumpsKeyVal (ind + 1) (str "title") (dumpsStr t.title),
       dumpsKeyVal (ind + 1) (str "lang") (dumpsStr t.lang),
       dumpsKeyVal (ind + 1) (str "transcript") (dumpsTranscriptVal (ind + 1) t.transcript),
       dumpsKeyVal (ind + 1) (str "all_langs") (dumpsStrList (ind + 1) t.all_langs)] ++
    str "\n" ++ indentChars ind ++ str "\x7d"

/-- Lines 1002–1012 of the source: the combined JSON export,
`json.dumps(st.session_state.transcripts, ensure_ascii=False, indent=2)`. -/
def json_export (transcripts : List TranscriptRecord) : List Char :=
  match transcripts with
  | [] => str "[]"
  | _ =>
    str "[\n" ++
      pyJoin (str ",\n") (transcripts.map (fun t => indentChars 1 ++ dumpsRecordCombined 1 t)) ++
      str "\n]"

/-- The per-record block of the combined TXT export (lines 1017–1029). -/
def txtBlock (t : TranscriptRecord) : List Char :=
  List.replicate 80 '=' ++ str "\n" ++
  str "Video ID: " ++ t.video_id ++ str "\n" ++
  str "Tytuł: " ++ t.title ++ str "\n" ++
  str "Język: " ++ t.lang ++ str "\n" ++
  List.replicate 80 '=' ++ str "\n\n" ++
  transcriptValStr t.transcript ++ str "\n\n\n"

/-- Lines 1016–1029 of the source: the combined TXT export. -/
def txt_export (transcripts : List TranscriptRecord) : List Char :=
  concatAll (transcripts.map txtBlock)

/-- `json.dumps` of the per-file dictionary of the JSON archive entries
(lines 179–186), key order `video_id, title, lang, all_langs, transcript,
url`, top level, `indent=2`, `ensure_ascii=False`. -/
def dumpsRecordZip (t : TranscriptRecord) : List Char :=
  str "\x7b\n" ++
    pyJoin (str ",\n")
      [dumpsKeyVal 1 (str "video_id") (dumpsStr t.video_id),
       dumpsKeyVal 1 (str "title") (dumpsStr t.title),
       dumpsKeyVal 1 (str "lang") (dumpsStr t.lang),
       dumpsKeyVal 1 (str "all_langs") (dumpsStrList 1 t.all_langs),
       dumpsKeyVal 1 (str "transcript") (dumpsTranscriptVal 1 t.transcript),
       dumpsKeyVal 1 (str "url") (dumpsStr (str "https://youtube.com/watch?v=" ++ t.video_id))] ++
    str "\n\x7d"

/-- One member of the ZIP archive: `zipfile.ZipFile.writestr` records the
entry name, the file bytes, and a `date_time` stamp taken from the clock
at the time of the call (the only call-time-dependent metadata in the
model). -/
structure ZipEntry where
  filename : List Char
  date_time : Nat
  data : List Char
deriving DecidableEq

/-- Lines 155–192 of the source, `create_transcripts_zip`: one archive
entry per record, named from the sanitized title; `now` is the clock value
`writestr` stamps into each entry. -/
def create_transcripts_zip (transcripts : List TranscriptRecord)
    (format : List Char) (now : Nat) : List ZipEntry :=
  transcripts.filterMap (fun t =>
    let safe_title := sanitize_filename t.title 200
    if format = str "txt" then
      some ⟨safe_title ++ str "_transcript_" ++ t.lang ++ str ".txt", now,
        transcriptValStr t.transcript⟩
    else if format = str "json" then
      some ⟨safe_title ++ str "_transcript_" ++ t.lang ++ str ".json", now,
        dumpsRecordZip t⟩
    else
      none)

/-- The four export outputs offered by the download panel
(lines 1002–1062), built from the session's record list at clock value
`now`. -/
structure SessionExports where
  combined_json : List Char
  combined_txt : List Char
  zip_txt : List ZipEntry
  zip_json : List ZipEntry
deriving DecidableEq

/-- One rendering of the export panel: all four outputs from the same
record sequence, ZIP entries stamped with the current clock. -/
def export_session (transcripts : List TranscriptRecord) (now : Nat) : SessionExports :=
  ⟨json_export transcripts,
   txt_export transcripts,
   create_transcripts_zip transcripts (str "txt") now,
   create_transcripts_zip transcripts (str "json") now⟩

/-- The time-independent part of a ZIP entry: its name and bytes. -/
def zipPayload (e : ZipEntry) : List Char × List Char := (e.filename, e.data)

theorem isPrefixOf_append_self (l t : List Char) : l.isPrefixOf (l ++ t) = true := by
  simp [List.isPrefixOf_iff_prefix]

theorem inStr_cons_of (sep : List Char) (c : Char) (s : List Char)
    (h : inStr sep s = true) : inStr sep (c :: s) = true := by
  simp [inStr, h]

theorem inStr_at_head (sc : Char) (srest rest : List Char) :
    inStr (sc :: srest) (sc :: (srest ++ rest)) = true := by
  have h := isPrefixOf_append_self (sc :: srest) rest
  simp only [List.cons_append] at h
  simp [inStr, h]

/-- A string that contains `sep` in the middle passes the `in` guard. -/
theorem inStr_sandwich (sep pre rest : List Char) (hne : sep ≠ []) :
    inStr sep (pre ++ sep ++ rest) = true := by
  induction pre with
  | nil =>
    cases sep with
    | nil => exact absurd rfl hne
    | cons sc srest => exact inStr_at_head sc srest rest
  | cons c pre ih => simpa using inStr_cons_of _ c _ ih

/-- The scanner walks through a region that does not begin the separator
anywhere, accumulating it into the current chunk. -/
theorem pySplitAux_scan (sc : Char) (srest a : List Char)
    (ha : ∀ c ∈ a, c ≠ sc) :
    ∀ s acc : List Char,
      pySplitAux sc srest (a ++ s) acc 0 = pySplitAux sc srest s (a.reverse ++ acc) 0 := by
  induction a with
  | nil => intro s acc; simp
  | cons x a ih =>
    intro s acc
    have hx : (sc == x) = false := beq_eq_false_iff_ne.mpr (Ne.symm (ha x (by simp)))
    have hpre : (sc :: srest).isPrefixOf (x :: (a ++ s)) = false := by
      simp [List.isPrefixOf, hx]
    have ihs := ih (fun c hc => ha c (by simp [hc])) s (x :: acc)
    simp [pySplitAux, hpre, ihs]

/-- Consuming `a.length` pending separator characters just drops `a`. -/
theorem pySplitAux_skip (sc : Char) (srest : List Char) (a : List Char) :
    ∀ s acc : List Char,
      pySplitAux sc srest (a ++ s) acc a.length = pySplitAux sc srest s acc 0 := by
  induction a with
  | nil => intro s acc; rfl
  | cons x a ih => intro s acc; simp [pySplitAux, ih]

/-- Hitting the separator emits the accumulated chunk and restarts after
it. -/
theorem pySplitAux_emit (sc : Char) (srest s acc : List Char) :
    pySplitAux sc srest (sc :: (srest ++ s)) acc 0 =
      acc.reverse :: pySplitAux sc srest s [] 0 := by
  have hpre : (sc :: srest).isPrefixOf (sc :: (srest ++ s)) = true := by
    exact isPrefixOf_append_self (sc :: srest) s
  simp [pySplitAux, hpre, pySplitAux_skip]

/-- A separator-free string is one single chunk. -/
theorem pySplitAux_no_occ (sc : Char) (srest s : List Char) :
    ∀ acc : List Char, inStr (sc :: srest) s = false →
      pySplitAux sc srest s acc 0 = [acc.reverse ++ s] := by
  induction s with
  | nil => intro acc _; simp [pySplitAux]
  | cons c rest ih =>
    intro acc h
    rw [inStr, Bool.or_eq_false_iff] at h
    simp [pySplitAux, h.1, ih _ h.2]

/-- C3: identifier resolution by shape.  A long-form watch URL yields the
value bound to `v` up to the next `&`; a short link yields the path after
the host marker up to `?`; a bare string of length exactly 11 is returned
whole; every other input yields `none`.  (`hid`/`hsuf` pin down where the
delimiters sit, exactly as the split-based extraction reads them.) -/
theorem resolve_by_shape :
    (∀ pre id suf : List Char,
      (∀ c ∈ pre, c ≠ 'v') →
      inStr (str "v=") (id ++ suf) = false →
      '&' ∉ id →
      (suf = [] ∨ ∃ s', suf = '&' :: s') →
      extract_video_id (pre ++ str "youtube.com/watch?v=" ++ id ++ suf) = some id) ∧
    (∀ pre id suf : List Char,
      inStr (str "youtube.com/watch?v=") (pre ++ str "youtu.be/" ++ id ++ suf) = false →
      (∀ c ∈ pre, c ≠ 'y') →
      inStr (str "youtu.be/") (id ++ suf) = false →
      '?' ∉ id →
      (suf = [] ∨ ∃ s', suf = '?' :: s') →
      extract_video_id (pre ++ str "youtu.be/" ++ id ++ suf) = some id) ∧
    (∀ url : List Char,
      inStr (str "youtube.com/watch?v=") url = false →
      inStr (str "youtu.be/") url = false →
      url.length = 11 →
      extract_video_id url = some url) ∧
    (∀ url : List Char,
      inStr (str "youtube.com/watch?v=") url = false →
      inStr (str "youtu.be/") url = false →
      url.length ≠ 11 →
      extract_video_id url = none) := by
  refine ⟨?_, ?_, ?_, ?_⟩
  · intro pre id suf hpre hvfree hamp hsuf
    have ha : ∀ c ∈ pre ++ str "youtube.com/watch?", c ≠ 'v' := by
      intro c hc
      rcases List.mem_append.mp hc with h | h
      · exact hpre c h
      · exact (by decide : ∀ x ∈ str "youtube.com/watch?", x ≠ 'v') c h
    have hvfree' : inStr ('v' :: ['=']) (id ++ suf) = false := hvfree
    have hW : inStr (str "youtube.com/watch?v=")
        (pre ++ (str "youtube.com/watch?v=" ++ (id ++ suf))) = true := by
      have h := inStr_sandwich (str "youtube.com/watch?v=") pre (id ++ suf) (by decide)
      simpa [List.append_assoc] using h
    have hurl : pre ++ (str "youtube.com/watch?v=" ++ (id ++ suf)) =
        (pre ++ str "youtube.com/watch?") ++ ('v' :: (['='] ++ (id ++ suf))) := by
      have hw : str "youtube.com/watch?v=" = str "youtube.com/watch?" ++ ('v' :: ['=']) := by
        decide
      rw [hw]
      simp [List.append_assoc]
    have hsplit1 : pySplit (pre ++ (str "youtube.com/watch?v=" ++ (id ++ suf))) (str "v=") =
        [pre ++ str "youtube.com/watch?", id ++ suf] := by
      rw [hurl]
      show pySplitAux 'v' ['=']
        ((pre ++ str "youtube.com/watch?") ++ ('v' :: (['='] ++ (id ++ suf)))) [] 0 = _
      rw [pySplitAux_scan 'v' ['='] _ ha, pySplitAux_emit, pySplitAux_no_occ _ _ _ _ hvfree']
      simp
    have hafree : ∀ c ∈ id, c ≠ '&' := fun c hc he => hamp (he ▸ hc)
    have hsplit2 : pyIdx (pySplit (id ++ suf) (str "&")) 0 = id := by
      show pyIdx (pySplitAux '&' [] (id ++ suf) [] 0) 0 = id
      rw [pySplitAux_scan '&' [] id hafree]
      rcases hsuf with h | ⟨s', h⟩
      · subst h
        simp [pySplitAux, pyIdx]
      · subst h
        have he := pySplitAux_emit '&' [] s' (id.reverse ++ [])
        simp only [List.nil_append] at he
        rw [he]
        simp [pyIdx]
    have hsplit2' : (pySplit (id ++ suf) (str "&"))[0]?.getD [] = id := by
      simpa [pyIdx] using hsplit2
    simp [extract_video_id, List.append_assoc, hW, hsplit1, hsplit2', pyIdx]
  · intro pre id suf hnoW hpre hsfree hq hsuf
    simp only [List.append_assoc] at hnoW
    have hsfree' : inStr ('y' :: str "outu.be/") (id ++ suf) = false := hsfree
    have hS : inStr (str "youtu.be/") (pre ++ (str "youtu.be/" ++ (id ++ suf))) = true := by
      have h := inStr_sandwich (str "youtu.be/") pre (id ++ suf) (by decide)
      simpa [List.append_assoc] using h
    have hurl : pre ++ (str "youtu.be/" ++ (id ++ suf)) =
        pre ++ ('y' :: (str "outu.be/" ++ (id ++ suf))) := by
      have hw : str "youtu.be/" = 'y' :: str "outu.be/" := by decide
      rw [hw]
      simp
    have hsplit1 : pySplit (pre ++ (str "youtu.be/" ++ (id ++ suf))) (str "youtu.be/") =
        [pre, id ++ suf] := by
      rw [hurl]
      show pySplitAux 'y' (str "outu.be/")
        (pre ++ ('y' :: (str "outu.be/" ++ (id ++ suf)))) [] 0 = _
      rw [pySplitAux_scan 'y' (str "outu.be/") pre hpre, pySplitAux_emit,
        pySplitAux_no_occ _ _ _ _ hsfree']
      simp
    have hafree : ∀ c ∈ id, c ≠ '?' := fun c hc he => hq (he ▸ hc)
    have hsplit2 : pyIdx (pySplit (id ++ suf) (str "?")) 0 = id := by
      show pyIdx (pySplitAux '?' [] (id ++ suf) [] 0) 0 = id
      rw [pySplitAux_scan '?' [] id hafree]
      rcases hsuf with h | ⟨s', h⟩
      · subst h
        simp [pySplitAux, pyIdx]
      · subst h
        have he := pySplitAux_emit '?' [] s' (id.reverse ++ [])
        simp only [List.nil_append] at he
        rw [he]
        simp [pyIdx]
    have hsplit2' : (pySplit (id ++ suf) (str "?"))[0]?.getD [] = id := by
      simpa [pyIdx] using hsplit2
    simp [extract_video_id, List.append_assoc, hnoW, hS, hsplit1, hsplit2', pyIdx]
  · intro url h1 h2 h3
    simp [extract_video_id, h1, h2, h3]
  · intro url h1 h2 h3
    simp [extract_video_id, h1, h2, h3]

theorem resolve_by_shape_witness :
    extract_video_id (str "https://www." ++ str "youtube.com/watch?v=" ++
        str "dQw4w9WgXcQ" ++ str "&t=4") = some (str "dQw4w9WgXcQ") ∧
    extract_video_id (str "https://" ++ str "youtu.be/" ++
        str "xvFZjo5PgG0" ++ str "?t=4") = some (str "xvFZjo5PgG0") ∧
    extract_video_id (str "dQw4w9WgXcQ") = some (str "dQw4w9WgXcQ") ∧
    extract_video_id (str "hello") = none := by
  refine ⟨?_, ?_, ?_, ?_⟩
  · exact resolve_by_shape.1 (str "https://www.") (str "dQw4w9WgXcQ") (str "&t=4")
      (by decide) (by decide) (by decide) (Or.inr ⟨str "t=4", by decide⟩)
  · exact resolve_by_shape.2.1 (str "https://") (str "xvFZjo5PgG0") (str "?t=4")
      (by decide) (by decide) (by decide) (by decide) (Or.inr ⟨str "t=4", by decide⟩)
  · exact resolve_by_shape.2.2.1 (str "dQw4w9WgXcQ") (by decide) (by decide) (by decide)
  · exact resolve_by_shape.2.2.2 (str "hello") (by decide) (by decide) (by decide)

/-- C9 (amended): only the bare-string branch guarantees the 11-character
length — an input matched by neither URL pattern that resolves must be an
11-character string returned whole; the URL branches return the delimited
substring without validating its length. -/
theorem bare_branch_id_length (url id : List Char)
    (h1 : inStr (str "youtube.com/watch?v=") url = false)
    (h2 : inStr (str "youtu.be/") url = false)
    (h3 : extract_video_id url = some id) : id = url ∧ id.length = 11 := by
  rw [extract_video_id] at h3
  simp only [h1, h2] at h3
  by_cases hl : url.length = 11
  · simp [hl] at h3
    exact ⟨h3.symm, h3 ▸ hl⟩
  · simp [hl] at h3

theorem bare_branch_id_length_witness :
    str "dQw4w9WgXcQ" = str "dQw4w9WgXcQ" ∧ (str "dQw4w9WgXcQ").length = 11 :=
  bare_branch_id_length (str "dQw4w9WgXcQ") (str "dQw4w9WgXcQ")
    (by decide) (by decide) (by decide)

/-- C9 fails as stated: a watch URL whose `v` parameter is 3 characters
long resolves to that 3-character id. -/
theorem resolver_length_counterexample :
    extract_video_id (str "https://www.youtube.com/watch?v=abc") = some (str "abc") ∧
    ¬ (str "abc").length = 11 := by decide

theorem firstAvailable_mem (preferred available : List (List Char)) (l : List Char)
    (h : firstAvailable preferred available = some l) : l ∈ available := by
  induction preferred with
  | nil => simp [firstAvailable] at h
  | cons p rest ih =>
    rw [firstAvailable] at h
    by_cases hc : available.contains p
    · simp only [hc, if_true] at h
      cases h
      simpa using hc
    · simp only [hc, Bool.false_eq_true, if_false] at h
      exact ih h

theorem firstAvailable_skip_misses (available : List (List Char)) :
    ∀ a : List (List Char), (∀ l ∈ a, l ∉ available) →
      ∀ b, firstAvailable (a ++ b) available = firstAvailable b available := by
  intro a
  induction a with
  | nil => intro _ b; rfl
  | cons p rest ih =>
    intro h b
    have hp : available.contains p = false := by
      by_cases hc : available.contains p
      · exact absurd (by simpa using hc) (h p (by simp))
      · simpa using hc
    rw [List.cons_append, firstAvailable, hp]
    simp only [Bool.false_eq_true, if_false]
    exact ih (fun l hl => h l (by simp [hl])) b

theorem firstAvailable_none (available : List (List Char)) (preferred : List (List Char))
    (h : ∀ l ∈ preferred, l ∉ available) : firstAvailable preferred available = none := by
  have := firstAvailable_skip_misses available preferred h []
  simpa using this

/-- C2: the language selector follows preference order, not availability
order — the first preferred language occurring among the available ones is
chosen; with no match it reports `available = false` together with the
full available list; `none` metadata yields `none`, distinct from the
unavailable outcome; and `["en","pl"]` against availability `["pl","en"]`
selects `"en"`. -/
theorem selectLanguage_preference_order :
    (∀ preferred_langs, check_transcript_availability none preferred_langs = none) ∧
    (∀ (m : VideoMetadata) (a b : List (List Char)) (lang : List Char),
      (∀ l ∈ a, l ∉ m.transcriptLanguages.getD []) →
      lang ∈ m.transcriptLanguages.getD [] →
      check_transcript_availability (some m) (a ++ lang :: b) =
        some ⟨true, some lang, m.transcriptLanguages.getD [], m.title.getD (str "N/A")⟩) ∧
    (∀ (m : VideoMetadata) (preferred_langs : List (List Char)),
      (∀ l ∈ preferred_langs, l ∉ m.transcriptLanguages.getD []) →
      check_transcript_availability (some m) preferred_langs =
        some ⟨false, none, m.transcriptLanguages.getD [], m.title.getD (str "N/A")⟩) ∧
    (check_transcript_availability
        (some ⟨some (str "T"), none, none, some [str "pl", str "en"]⟩)
        [str "en", str "pl"] =
      some ⟨true, some (str "en"), [str "pl", str "en"], str "T"⟩) := by
  refine ⟨fun _ => rfl, ?_, ?_, by decide⟩
  · intro m a b lang ha hmem
    have h1 := firstAvailable_skip_misses (m.transcriptLanguages.getD []) a ha (lang :: b)
    have h2 : (m.transcriptLanguages.getD []).contains lang = true := by simpa using hmem
    rw [check_transcript_availability, h1, firstAvailable, h2]
    simp
  · intro m preferred_langs h
    rw [check_transcript_availability, firstAvailable_none _ _ h]

theorem selectLanguage_preference_order_witness :
    check_transcript_availability none [str "en"] = none ∧
    check_transcript_availability
        (some ⟨some (str "T"), none, none, some [str "de", str "pl"]⟩)
        ([str "en"] ++ str "pl" :: []) =
      some ⟨true, some (str "pl"), [str "de", str "pl"], str "T"⟩ ∧
    check_transcript_availability
        (some ⟨some (str "T"), none, none, some [str "de"]⟩)
        [str "en", str "pl"] =
      some ⟨false, none, [str "de"], str "T"⟩ := by
  refine ⟨selectLanguage_preference_order.1 [str "en"], ?_, ?_⟩
  · exact selectLanguage_preference_order.2.1
      ⟨some (str "T"), none, none, some [str "de", str "pl"]⟩
      [str "en"] [] (str "pl") (by decide) (by decide)
  · exact selectLanguage_preference_order.2.2.1
      ⟨some (str "T"), none, none, some [str "de"]⟩
      [str "en", str "pl"] (by decide)

theorem filterDateItem_id (env : List Char → Option VideoMetadata) (d : PyDate)
    (v : List Char) (e : FilteredEntry) (h : filterDateItem env d v = some e) :
    e.id = v := by
  cases henv : env v with
  | none => simp [filterDateItem, henv] at h
  | some data =>
    cases hud : data.uploadDate with
    | none => simp [filterDateItem, henv, hud] at h
    | some ud =>
      cases hpd : pyStrptimeDate (ud.take 10) with
      | none => simp [filterDateItem, henv, hud, hpd] at h
      | some upd =>
        by_cases hle : dateLe d upd
        · simp [filterDateItem, henv, hud, hpd, hle] at h
          rw [← h]
        · simp [filterDateItem, henv, hud, hpd, hle] at h

theorem filterMap_dateItem_ids (env : List Char → Option VideoMetadata) (d : PyDate) :
    ∀ ids : List (List Char),
      (ids.filterMap (filterDateItem env d)).map FilteredEntry.id =
        ids.filter (fun v => (filterDateItem env d v).isSome) := by
  intro ids
  induction ids with
  | nil => rfl
  | cons v rest ih =>
    cases hv : filterDateItem env d v with
    | none => simp [List.filterMap_cons, hv, List.filter_cons, ih]
    | some e =>
      have he := filterDateItem_id env d v e hv
      simp [List.filterMap_cons, hv, List.filter_cons, ih, he]

/-- C4: the date filter examines at most the first 50 ids and its output
is exactly the in-order sub-sequence of those examined ids that pass the
upload-date test (metadata present, first 10 characters parse as a date on
or after the cutoff); with upload dates 2023-12-31 and 2024-02-01 and
cutoff 2024-01-01, only the second id is retained. -/
theorem filter_by_date_contract :
    (∀ (env : List Char → Option VideoMetadata) (ids : List (List Char)) (d : PyDate),
      filter_by_date env ids d = filter_by_date env (ids.take 50) d) ∧
    (∀ (env : List Char → Option VideoMetadata) (ids : List (List Char)) (d : PyDate),
      (filter_by_date env ids d).map FilteredEntry.id =
        (ids.take 50).filter (fun v => (filterDateItem env d v).isSome)) ∧
    ((filter_by_date
        (fun v =>
          if v = str "vidA" then
            some ⟨some (str "A"), some (str "2023-12-31T00:00:00"), some 5, some [str "en"]⟩
          else if v = str "vidB" then
            some ⟨some (str "B"), some (str "2024-02-01T00:00:00"), some 7, some [str "en"]⟩
          else none)
        [str "vidA", str "vidB"] ⟨2024, 1, 1⟩).map FilteredEntry.id = [str "vidB"]) := by
  refine ⟨?_, ?_, by decide⟩
  · intro env ids d
    simp [filter_by_date, List.take_take]
  · intro env ids d
    exact filterMap_dateItem_ids env d (ids.take 50)

/-- C7: the transcript client returns `none` whenever the underlying call
raises or the provider answers with a non-200 status; on a 200 response
whose content is a segment list, the returned content is the
newline-join of the segments' text fragments. -/
theorem fetch_transcript_never_raises :
    (∀ (api_key video_id lang : List Char) (as_text : Bool),
      fetch_transcript api_key video_id lang as_text .raised = none) ∧
    (∀ (api_key video_id lang : List Char) (as_text : Bool)
        (status : Nat) (body : TranscriptBody), status ≠ 200 →
      fetch_transcript api_key video_id lang as_text (.response status body) = none) ∧
    (∀ (api_key video_id lang : List Char) (as_text : Bool) (segs : List Segment),
      fetch_transcript api_key video_id lang as_text
          (.response 200 ⟨some (.segs segs)⟩) =
        some ⟨pyJoin (str "\n") (segs.map (fun s => s.text.getD []))⟩) := by
  refine ⟨fun _ _ _ _ => rfl, ?_, fun _ _ _ _ _ => rfl⟩
  intro _ _ _ _ status body h
  simp [fetch_transcript, h]

theorem fetch_transcript_never_raises_witness :
    fetch_transcript (str "k") (str "v") (str "en") true .raised = none ∧
    fetch_transcript (str "k") (str "v") (str "en") true
        (.response 404 ⟨some (.str (str "err"))⟩) = none ∧
    fetch_transcript (str "k") (str "v") (str "en") true
        (.response 200 ⟨some (.segs [⟨some (str "hi")⟩])⟩) =
      some ⟨pyJoin (str "\n") (([⟨some (str "hi")⟩] : List Segment).map (fun s => s.text.getD []))⟩ := by
  refine ⟨fetch_transcript_never_raises.1 (str "k") (str "v") (str "en") true, ?_, ?_⟩
  · exact fetch_transcript_never_raises.2.1 (str "k") (str "v") (str "en") true
      404 ⟨some (.str (str "err"))⟩ (by decide)
  · exact fetch_transcript_never_raises.2.2 (str "k") (str "v") (str "en") true
      [⟨some (str "hi")⟩]

theorem pySplitAux_join (sc : Char) :
    ∀ (chunks : List (List Char)) (ch acc : List Char),
      (∀ c ∈ ch, c ≠ sc) → (∀ x ∈ chunks, ∀ c ∈ x, c ≠ sc) →
      pySplitAux sc [] (pyJoin [sc] (ch :: chunks)) acc 0 = (acc.reverse ++ ch) :: chunks := by
  intro chunks
  induction chunks with
  | nil =>
    intro ch acc hch _
    show pySplitAux sc [] (ch ++ []) acc 0 = _
    rw [pySplitAux_scan sc [] ch hch]
    simp [pySplitAux]
  | cons ch2 rest ih =>
    intro ch acc hch hall
    show pySplitAux sc [] (ch ++ (sc :: ([] ++ pyJoin [sc] (ch2 :: rest)))) acc 0 = _
    rw [pySplitAux_scan sc [] ch hch, pySplitAux_emit]
    rw [ih ch2 [] (hall ch2 (by simp)) (fun x hx => hall x (by simp [hx]))]
    simp

/-- C10: flattening a 200 segment-list response is total on malformed
segments — a segment without a `text` key contributes the empty string,
is not dropped, and the flattened content splits back on newlines into
exactly one line per segment (provided the present fragments are
newline-free, so that fragments and lines coincide). -/
theorem segment_flatten_lines (api_key video_id lang : List Char) (as_text : Bool)
    (segs : List Segment) (td : TranscriptData)
    (h : fetch_transcript api_key video_id lang as_text
        (.response 200 ⟨some (.segs segs)⟩) = some td)
    (hne : segs ≠ [])
    (hfree : ∀ s ∈ segs, ∀ c ∈ s.text.getD [], c ≠ '\n') :
    pySplit td.content (str "\n") = segs.map (fun s => s.text.getD []) := by
  have hcontent : td.content = pyJoin (str "\n") (segs.map fun s => s.text.getD []) := by
    simp [fetch_transcript] at h
    rw [← h]
  cases segs with
  | nil => exact absurd rfl hne
  | cons s₀ srest =>
    rw [hcontent]
    show pySplitAux '\n' []
      (pyJoin ['\n'] ((s₀.text.getD []) :: srest.map (fun s => s.text.getD []))) [] 0 = _
    rw [pySplitAux_join '\n' (srest.map fun s => s.text.getD []) (s₀.text.getD []) []
      (hfree s₀ (by simp))
      (by
        intro x hx c hc
        obtain ⟨s, hs, rfl⟩ := List.mem_map.mp hx
        exact hfree s (by simp [hs]) c hc)]
    simp

theorem segment_flatten_lines_witness :
    pySplit (str "ab\n\ncd") (str "\n") = [str "ab", [], str "cd"] := by
  have h := segment_flatten_lines (str "k") (str "v") (str "en") true
    [⟨some (str "ab")⟩, ⟨none⟩, ⟨some (str "cd")⟩] ⟨str "ab\n\ncd"⟩
    (by decide) (by decide) (by decide)
  simpa using h

theorem runBatchAux_append (envMeta : List Char → Option VideoMetadata)
    (envTr : List Char → List Char → FetchOutcome)
    (api_key : List Char) (preferred_langs : List (List Char)) (as_text : Bool)
    (xs ys : List (List Char)) :
    runBatchAux envMeta envTr api_key preferred_langs as_text (xs ++ ys) =
      ((runBatchAux envMeta envTr api_key preferred_langs as_text xs).1 ++
         (runBatchAux envMeta envTr api_key preferred_langs as_text ys).1,
       (runBatchAux envMeta envTr api_key preferred_langs as_text xs).2 ++
         (runBatchAux envMeta envTr api_key preferred_langs as_text ys).2) := by
  induction xs with
  | nil => simp [runBatchAux]
  | cons v rest ih => simp [runBatchAux, ih]

theorem processItem_meta_failed (envMeta : List Char → Option VideoMetadata)
    (envTr : List Char → List Char → FetchOutcome)
    (api_key : List Char) (preferred_langs : List (List Char)) (as_text : Bool)
    (b : List Char) (h : envMeta b = none) :
    processItem envMeta envTr api_key preferred_langs as_text b =
      (none, .metadataFailed b) := by
  simp [processItem, h]

/-- C1: batch partial-failure tolerance — with ids processed strictly in
input order, an id whose metadata fetch fails contributes no record and
exactly one skip event naming that id and the metadata-fetch reason, in
place, while every other id's contribution is unchanged; in the concrete
3-id scenario, exactly the records for ids 1 and 3 are produced with the
skip event for id 2 between their status events. -/
theorem batch_partial_failure :
    (∀ (envMeta : List Char → Option VideoMetadata)
        (envTr : List Char → List Char → FetchOutcome)
        (api_key : List Char) (preferred_langs : List (List Char)) (as_text : Bool)
        (pre post : List (List Char)) (b : List Char) (max_videos : Nat),
      envMeta b = none →
      (pre ++ b :: post).length ≤ max_videos →
      runBatch envMeta envTr api_key preferred_langs as_text (pre ++ b :: post) max_videos =
        ((runBatchAux envMeta envTr api_key preferred_langs as_text pre).1 ++
           (runBatchAux envMeta envTr api_key preferred_langs as_text post).1,
         (runBatchAux envMeta envTr api_key preferred_langs as_text pre).2 ++
           StatusEvent.metadataFailed b ::
             (runBatchAux envMeta envTr api_key preferred_langs as_text post).2)) ∧
    (runBatch
        (fun v =>
          if v = str "idA" then some ⟨some (str "A"), none, none, some [str "en"]⟩
          else if v = str "idC" then some ⟨some (str "C"), none, none, some [str "en"]⟩
          else none)
        (fun _ _ => .response 200 ⟨some (.str (str "hello"))⟩)
        (str "k") [str "en"] true [str "idA", str "idB", str "idC"] 3 =
      ([⟨str "idA", str "A", str "en", .str (str "hello"), [str "en"]⟩,
        ⟨str "idC", str "C", str "en", .str (str "hello"), [str "en"]⟩],
       [.fetched (str "A") (str "en"),
        .metadataFailed (str "idB"),
        .fetched (str "C") (str "en")])) := by
  refine ⟨?_, by decide⟩
  intro envMeta envTr api_key preferred_langs as_text pre post b max_videos hb hlen
  rw [runBatch, List.take_of_length_le hlen]
  have hsplit : pre ++ b :: post = pre ++ ([b] ++ post) := rfl
  rw [hsplit, runBatchAux_append, runBatchAux_append]
  simp [runBatchAux, processItem_meta_failed envMeta envTr api_key preferred_langs as_text b hb]

theorem batch_partial_failure_witness :
    runBatch
        (fun v => if v = str "idJ" then none
          else some ⟨some (str "T"), none, none, some [str "en"]⟩)
        (fun _ _ => .response 200 ⟨some (.str (str "hi"))⟩)
        (str "k") [str "en"] true ([str "idI"] ++ str "idJ" :: [str "idK"]) 3 =
      ((runBatchAux
          (fun v => if v = str "idJ" then none
            else some ⟨some (str "T"), none, none, some [str "en"]⟩)
          (fun _ _ => .response 200 ⟨some (.str (str "hi"))⟩)
          (str "k") [str "en"] true [str "idI"]).1 ++
        (runBatchAux
          (fun v => if v = str "idJ" then none
            else some ⟨some (str "T"), none, none, some [str "en"]⟩)
          (fun _ _ => .response 200 ⟨some (.str (str "hi"))⟩)
          (str "k") [str "en"] true [str "idK"]).1,
       (runBatchAux
          (fun v => if v = str "idJ" then none
            else some ⟨some (str "T"), none, none, some [str "en"]⟩)
          (fun _ _ => .response 200 ⟨some (.str (str "hi"))⟩)
          (str "k") [str "en"] true [str "idI"]).2 ++
         StatusEvent.metadataFailed (str "idJ") ::
           (runBatchAux
            (fun v => if v = str "idJ" then none
              else some ⟨some (str "T"), none, none, some [str "en"]⟩)
            (fun _ _ => .response 200 ⟨some (.str (str "hi"))⟩)
            (str "k") [str "en"] true [str "idK"]).2) :=
  batch_partial_failure.1
    (fun v => if v = str "idJ" then none
      else some ⟨some (str "T"), none, none, some [str "en"]⟩)
    (fun _ _ => .response 200 ⟨some (.str (str "hi"))⟩)
    (str "k") [str "en"] true [str "idI"] [str "idK"] (str "idJ") 3
    (by decide) (by decide)

theorem processItem_lang_mem (envMeta : List Char → Option VideoMetadata)
    (envTr : List Char → List Char → FetchOutcome)
    (api_key : List Char) (preferred_langs : List (List Char)) (as_text : Bool)
    (v : List Char) (r : TranscriptRecord)
    (h : (processItem envMeta envTr api_key preferred_langs as_text v).1 = some r) :
    r.lang ∈ r.all_langs := by
  cases hm : envMeta v with
  | none => simp [processItem, hm] at h
  | some m =>
    cases hf : firstAvailable preferred_langs (m.transcriptLanguages.getD []) with
    | none => simp [processItem, check_transcript_availability, hm, hf] at h
    | some l =>
      have hmem := firstAvailable_mem _ _ _ hf
      cases ht : fetch_transcript api_key v l as_text (envTr v l) with
      | none => simp [processItem, check_transcript_availability, hm, hf, ht] at h
      | some td =>
        simp [processItem, check_transcript_availability, hm, hf, ht] at h
        rw [← h]
        exact hmem

theorem runBatchAux_lang_mem (envMeta : List Char → Option VideoMetadata)
    (envTr : List Char → List Char → FetchOutcome)
    (api_key : List Char) (preferred_langs : List (List Char)) (as_text : Bool) :
    ∀ (ids : List (List Char)) (r : TranscriptRecord),
      r ∈ (runBatchAux envMeta envTr api_key preferred_langs as_text ids).1 →
      r.lang ∈ r.all_langs := by
  intro ids
  induction ids with
  | nil => intro r h; simp [runBatchAux] at h
  | cons v rest ih =>
    intro r h
    simp only [runBatchAux, List.mem_append] at h
    rcases h with h | h
    · cases hp : (processItem envMeta envTr api_key preferred_langs as_text v).1 with
      | none => rw [hp] at h; simp at h
      | some r' =>
        rw [hp] at h
        simp at h
        exact h ▸ processItem_lang_mem envMeta envTr api_key preferred_langs as_text v r' hp
    · exact ih r h

/-- C8: every record accumulated by the batch orchestrator has its `lang`
field equal to a member of its `all_langs` field. -/
theorem record_lang_in_all_langs (envMeta : List Char → Option VideoMetadata)
    (envTr : List Char → List Char → FetchOutcome)
    (api_key : List Char) (preferred_langs : List (List Char)) (as_text : Bool)
    (video_ids : List (List Char)) (max_videos : Nat) (r : TranscriptRecord)
    (h : r ∈ (runBatch envMeta envTr api_key preferred_langs as_text video_ids max_videos).1) :
    r.lang ∈ r.all_langs := by
  rw [runBatch] at h
  exact runBatchAux_lang_mem envMeta envTr api_key preferred_langs as_text
    (video_ids.take max_videos) r h

theorem record_lang_in_all_langs_witness : (str "en") ∈ [str "en"] :=
  record_lang_in_all_langs
    (fun _ => some ⟨some (str "A"), none, none, some [str "en"]⟩)
    (fun _ _ => .response 200 ⟨some (.str (str "hi"))⟩)
    (str "k") [str "en"] true [str "idA"] 3
    ⟨str "idA", str "A", str "en", .str (str "hi"), [str "en"]⟩
    (by decide)

/-- C5: filename sanitization — the implementation coincides with the
pipeline as the spec words it (strip invalid characters, collapse
whitespace runs, trim spaces and dots at the ends, cap at 200, substitute
"untitled" for an empty result), and the two spec examples hold. -/
theorem sanitize_filename_spec :
    (∀ title : List Char, sanitize_filename title 200 = sanitizeSpecPipeline title) ∧
    sanitize_filename (str "Foo: Bar / Baz???") 200 = str "Foo Bar Baz" ∧
    sanitize_filename (str "???") 200 = str "untitled" := by
  refine ⟨?_, by decide, by decide⟩
  intro title
  simp only [sanitize_filename, sanitizeSpecPipeline]
  by_cases h :
      pyStripSpaceDot (collapseSpacesAux false
        (title.filter fun c => !isInvalidFilenameChar c)) = []
  · rw [h]
    decide
  · rw [if_neg h]
    have h4 : (if 200 <
        (pyStripSpaceDot (collapseSpacesAux false
          (title.filter fun c => !isInvalidFilenameChar c))).length then
        (pyStripSpaceDot (collapseSpacesAux false
          (title.filter fun c => !isInvalidFilenameChar c))).take 200
      else
        pyStripSpaceDot (collapseSpacesAux false
          (title.filter fun c => !isInvalidFilenameChar c))) ≠ [] := by
      by_cases hl : 200 <
          (pyStripSpaceDot (collapseSpacesAux false
            (title.filter fun c => !isInvalidFilenameChar c))).length
      · rw [if_pos hl]
        simp [List.take_eq_nil_iff, h]
      · rw [if_neg hl]
        exact h
    rw [if_neg h4]

theorem filterMap_ext {α β : Type} (f g : α → Option β) (l : List α)
    (h : ∀ a, f a = g a) : l.filterMap f = l.filterMap g := by
  induction l with
  | nil => rfl
  | cons a l ih => simp [List.filterMap_cons, h, ih]

theorem create_zip_payload_time_indep (transcripts : List TranscriptRecord)
    (format : List Char) (t1 t2 : Nat) :
    (create_transcripts_zip transcripts format t1).map zipPayload =
      (create_transcripts_zip transcripts format t2).map zipPayload := by
  rw [create_transcripts_zip, create_transcripts_zip, List.map_filterMap, List.map_filterMap]
  apply filterMap_ext
  intro t
  by_cases h1 : format = str "txt"
  · simp [h1, zipPayload]
  · by_cases h2 : format = str "json"
    · have hne : ¬(str "json" = str "txt") := by decide
      simp [h1, h2, hne, zipPayload]
    · simp [h1, h2]

/-- C6: export determinism — rendering the export panel twice on an
identical record sequence yields byte-identical combined JSON and TXT
outputs, and archives identical modulo the compression timestamp metadata
(entry names and bytes agree; only the `date_time` stamp follows the
clock). -/
theorem export_deterministic (transcripts : List TranscriptRecord) (t1 t2 : Nat) :
    (export_session transcripts t1).combined_json =
        (export_session transcripts t2).combined_json ∧
    (export_session transcripts t1).combined_txt =
        (export_session transcripts t2).combined_txt ∧
    (export_session transcripts t1).zip_txt.map zipPayload =
        (export_session transcripts t2).zip_txt.map zipPayload ∧
    (export_session transcripts t1).zip_json.map zipPayload =
        (export_session transcripts t2).zip_json.map zipPayload :=
  ⟨rfl, rfl, create_zip_payload_time_indep transcripts (str "txt") t1 t2,
    create_zip_payload_time_indep transcripts (str "json") t1 t2⟩
